import Mathlib

/-!
Verification development for the Whisper WPM / background-noise evaluation
harness (`evaluate.py`).

Text is modelled as a list of Unicode code points (`Txt := List Nat`); the
helper `str` converts a Lean string literal to this representation.  The
Python functions of `evaluate.py` are embedded as executable Lean
definitions:

* `normalize_text`  — `evaluate.py::normalize_text` (lowercase, drop every
  character outside `\w`, `\s`, apostrophe, collapse whitespace).  The regex
  classes `\w` and `\s` are modelled over ASCII (`[A-Za-z0-9_]` and Python's
  six whitespace characters), and `str.lower` as ASCII lowercasing, which is
  exact on every input appearing in the repository's data.
* `editDistance` / `jiwer_wer` / `jiwer_cer` — the jiwer library calls
  (`jiwer.wer`, `jiwer.cer`) that `calculate_metrics` delegates to: unit-cost
  Levenshtein distance over whitespace tokens (resp. characters) divided by
  the reference length, raising (modelled as `none`) when the reference is
  empty, as jiwer does and as the spec records ("empty reference → treated
  as error by convention of the underlying library").  `calculate_metrics`
  always feeds jiwer already-normalized strings, on which jiwer's own
  `RemoveMultipleSpaces`/`Strip` pre-transformations are identities, so they
  are not repeated here.
* `transcribe_audio`, `load_ground_truth`, `run_evaluation` — the batch
  pipeline, with the outside world (file existence, sample file contents,
  HTTP responses) supplied by an explicit `Env` of functions.  File reads
  that Python would fail with an uncaught exception are modelled with
  `Except`.
* `save_results` — a pure record of what the function writes and prints.
-/

/-- Text is a list of Unicode code points. -/
abbrev Txt := List Nat

/-- Converts a Lean string literal to its code-point list. -/
def str (s : String) : Txt := s.data.map Char.toNat

/-- Models the regex class `\w` (ASCII): letters, digits, underscore. -/
def isWordN (n : Nat) : Bool :=
  decide ((48 ≤ n ∧ n ≤ 57) ∨ (65 ≤ n ∧ n ≤ 90) ∨ (97 ≤ n ∧ n ≤ 122) ∨ n = 95)

/-- Models the regex class `\s` and `str.split` whitespace: space, tab,
newline, carriage return, vertical tab, form feed. -/
def isSpaceN (n : Nat) : Bool :=
  decide (n = 32 ∨ n = 9 ∨ n = 10 ∨ n = 13 ∨ n = 11 ∨ n = 12)

/-- Models `str.lower` on one code point (ASCII range). -/
def lowerN (n : Nat) : Nat := if 65 ≤ n ∧ n ≤ 90 then n + 32 else n

/-- A character survives `re.sub(r"[^\w\s']", "", text)` iff it is a word
character, whitespace, or an apostrophe (code point 39). -/
def keepN (n : Nat) : Bool := isWordN n || isSpaceN n || n == 39

/-- Models Python `text.split()`: split on whitespace runs, dropping empty
pieces.  The first argument accumulates the current token in reverse. -/
def splitAux : Txt → Txt → List Txt
| acc, [] => if acc.isEmpty then [] else [acc.reverse]
| acc, c :: cs =>
  if isSpaceN c then
    (if acc.isEmpty then splitAux [] cs else acc.reverse :: splitAux [] cs)
  else splitAux (c :: acc) cs

/-- Python `text.split()` (no separator argument). -/
def pySplit (l : Txt) : List Txt := splitAux [] l

/-- Python `" ".join(tokens)`. -/
def joinSpace : List Txt → Txt
| [] => []
| [t] => t
| t :: ts => t ++ 32 :: joinSpace ts

/-- Python `text.strip()`: drop leading and trailing whitespace. -/
def pyStrip (l : Txt) : Txt :=
  ((l.dropWhile isSpaceN).reverse.dropWhile isSpaceN).reverse

/-- Embeds `evaluate.py::normalize_text`: lowercase, remove every character
matching `[^\w\s']`, then `" ".join(text.split())`. -/
def normalize_text (l : Txt) : Txt :=
  joinSpace (pySplit ((l.map lowerN).filter keepN))

/-- Character filter following the claim's words: punctuation removed, an
apostrophe retained only when it sits between two word characters
(word-internal contraction).  The first argument is the previous character. -/
def claimKeep : Option Nat → Txt → Txt
| _, [] => []
| prev, c :: cs =>
  if isWordN c || isSpaceN c then c :: claimKeep (some c) cs
  else if c == 39
      && (match prev with | some p => isWordN p | none => false)
      && (match cs.head? with | some q => isWordN q | none => false) then
    c :: claimKeep (some c) cs
  else claimKeep (some c) cs

/-- Normalization as the claim literally states it: lowercase, remove
punctuation retaining only word-internal contraction apostrophes, collapse
whitespace.  Used solely to compare the claim's words with the code. -/
def normalizeTextClaimed (l : Txt) : Txt :=
  joinSpace (pySplit (claimKeep none (l.map lowerN)))

/-- A code point that may appear in `normalize_text` output: a word
character, an apostrophe, or a single space, and fixed under lowercasing. -/
def normChar (c : Nat) : Bool :=
  (isWordN c || c == 39 || c == 32) && (lowerN c == c)

/-- Fuel-driven unit-cost Levenshtein distance (structural recursion so that
the kernel can evaluate it). -/
def levFuel {α : Type} [DecidableEq α] : Nat → List α → List α → Nat
| _, [], ys => ys.length
| _, _ :: xs, [] => xs.length + 1
| 0, _ :: _, _ :: _ => 0
| f + 1, x :: xs, y :: ys =>
  if x = y then levFuel f xs ys
  else 1 + min (levFuel f xs (y :: ys)) (min (levFuel f (x :: xs) ys) (levFuel f xs ys))

/-- Unit-cost Levenshtein edit distance, the alignment underlying jiwer's
`wer` and `cer`.  The fuel `xs.length + ys.length` is always sufficient. -/
def editDistance {α : Type} [DecidableEq α] (xs ys : List α) : Nat :=
  levFuel (xs.length + ys.length) xs ys

/-- Models `jiwer.wer` on already-normalized strings: Levenshtein distance
over whitespace tokens divided by the reference token count; `none` models
the ValueError jiwer raises on an empty reference. -/
def jiwer_wer (reference hypothesis : Txt) : Option ℚ :=
  let rt := pySplit reference
  let ht := pySplit hypothesis
  if rt.length = 0 then none
  else some ((editDistance rt ht : ℚ) / (rt.length : ℚ))

/-- Models `jiwer.cer` on already-normalized strings: Levenshtein distance
over characters divided by the reference length; `none` models the
ValueError jiwer raises on an empty reference. -/
def jiwer_cer (reference hypothesis : Txt) : Option ℚ :=
  if reference.length = 0 then none
  else some ((editDistance reference hypothesis : ℚ) / (reference.length : ℚ))

/-- The metrics dict built by `evaluate.py::calculate_metrics`. -/
structure Metrics where
  wer : ℚ
  cer : ℚ
  reference_words : Nat
  hypothesis_words : Nat
deriving DecidableEq

/-- Embeds `evaluate.py::calculate_metrics`: normalize both strings, then
compute WER, CER and token counts.  `none` models a jiwer ValueError
escaping (empty normalized reference). -/
def calculate_metrics (reference hypothesis : Txt) : Option Metrics :=
  let rn := normalize_text reference
  let hn := normalize_text hypothesis
  match jiwer_wer rn hn, jiwer_cer rn hn with
  | some w, some c => some ⟨w, c, (pySplit rn).length, (pySplit hn).length⟩
  | _, _ => none

/-- The annotation sub-dictionary of a metadata record; `none` models a
missing key (so `dict.get` defaults apply). -/
structure Annot where
  pace : Option Txt
  background_noise : Option Txt
deriving DecidableEq

/-- One line of `dataset/metadata.jsonl`, as read by `run_evaluation`.
Optional fields model `record.get(key, default)` on possibly missing keys;
an absent annotation dictionary is modelled by both fields `none`. -/
structure MetaRecord where
  id : Option Txt
  audio : Option Txt
  sample_file : Option Txt
  sample : Option Txt
  annotations : Annot
  duration_seconds : Option ℚ
deriving DecidableEq

/-- The HTTP response seen by `transcribe_audio`: status code, body
(`response.text`), and the optional `text` field of the parsed JSON
(`response.json().get("text", "")`). -/
structure HttpResponse where
  status_code : Nat
  text : Txt
  text_field : Option Txt

/-- The outside world of one evaluation run: which audio paths exist, the
contents of sample files (`none` = file absent, so `open` raises), and the
HTTP response returned for each audio path. -/
structure Env where
  audioExists : Txt → Bool
  sampleText : Txt → Option Txt
  transcribeResp : Txt → HttpResponse

/-- The exception raised by `transcribe_audio` on a non-200 response:
`Exception(f"Transcription failed: {status_code} - {text}")`, carrying the
status code and the response body. -/
structure TranscribeError where
  status_code : Nat
  body : Txt
deriving DecidableEq

/-- Exceptions that escape `run_evaluation`: a FileNotFoundError from
`load_ground_truth`, or a jiwer ValueError from `calculate_metrics`. -/
inductive EvalError
| fileNotFound : Txt → EvalError
| metricError : EvalError
deriving DecidableEq

/-- One element of the results list assembled per record. -/
structure EvalResult where
  id : Txt
  sample : Txt
  sample_file : Txt
  annotations : Annot
  duration_seconds : ℚ
  transcription : Txt
  reference : Txt
  metrics : Metrics
deriving DecidableEq

/-- Path separator used by `Path./`. -/
def pathJoin (a b : Txt) : Txt := a ++ 47 :: b

/-- `DATASET_DIR` (relative to `BASE_DIR`, which is constant). -/
def datasetDir : Txt := str ("dataset")

/-- `SAMPLES_DIR` (relative to `BASE_DIR`). -/
def samplesDir : Txt := str ("samples")

/-- Default text used by `record.get("id", "unknown")` and
`annotations.get(..., "unknown")`. -/
def unknownTxt : Txt := str ("unknown")

/-- `record_id = record.get("id", "unknown")`. -/
def recordId (r : MetaRecord) : Txt := r.id.getD unknownTxt

/-- `audio_rel_path = record.get("audio", f"audio/{record_id}.wav")`. -/
def audioRel (r : MetaRecord) : Txt :=
  r.audio.getD (str ("audio/") ++ recordId r ++ str (".wav"))

/-- `audio_path = DATASET_DIR / audio_rel_path`. -/
def audioPath (r : MetaRecord) : Txt := pathJoin datasetDir (audioRel r)

/-- `sample_file = record.get("sample_file", "")`. -/
def sampleFileOf (r : MetaRecord) : Txt := r.sample_file.getD []

/-- `sample_path = SAMPLES_DIR / sample_file`. -/
def samplePath (f : Txt) : Txt := pathJoin samplesDir f

/-- Embeds `evaluate.py::transcribe_audio`: POST the audio, return the JSON
`text` field on a 200 response, otherwise raise an exception carrying the
status code and response body. -/
def transcribe_audio (env : Env) (p : Txt) : Except TranscribeError Txt :=
  let resp := env.transcribeResp p
  if resp.status_code = 200 then .ok (resp.text_field.getD [])
  else .error ⟨resp.status_code, resp.text⟩

/-- Embeds `evaluate.py::load_ground_truth`: `open(SAMPLES_DIR / sample_file)`
raises FileNotFoundError if the file is absent, otherwise returns
`f.read().strip()`. -/
def load_ground_truth (env : Env) (f : Txt) : Except EvalError Txt :=
  match env.sampleText (samplePath f) with
  | some t => .ok (pyStrip t)
  | none => .error (.fileNotFound (samplePath f))

/-- Lookup in the `ground_truths` cache dictionary (keys are unique because
entries are only added after a failed lookup). -/
def lookupGT : List (Txt × Txt) → Txt → Option Txt
| [], _ => none
| (k, v) :: rest, f => if k = f then some v else lookupGT rest f

/-- The transcribe-and-score tail of one loop iteration of `run_evaluation`:
the `try/except` around `transcribe_audio` (skip the record on error), then
`calculate_metrics` (not guarded: a jiwer error escapes), then append the
result dict. -/
def scoreRecord (env : Env) (gts : List (Txt × Txt)) (results : List EvalResult)
    (r : MetaRecord) (reference : Txt) :
    Except EvalError (List (Txt × Txt) × List EvalResult) :=
  match transcribe_audio env (audioPath r) with
  | .error _ => .ok (gts, results)
  | .ok transcription =>
    match calculate_metrics reference transcription with
    | none => .error .metricError
    | some m =>
      .ok (gts, results ++ [⟨recordId r, r.sample.getD [], sampleFileOf r,
        r.annotations, r.duration_seconds.getD 0, transcription, reference, m⟩])

/-- One iteration of the `for record in records` loop of `run_evaluation`:
skip if the audio file is missing, load (and cache) the ground truth —
uncaught on failure — then transcribe and score. -/
def processRecord (env : Env) (gts : List (Txt × Txt)) (results : List EvalResult)
    (r : MetaRecord) : Except EvalError (List (Txt × Txt) × List EvalResult) :=
  if env.audioExists (audioPath r) then
    match lookupGT gts (sampleFileOf r) with
    | some reference => scoreRecord env gts results r reference
    | none =>
      match load_ground_truth env (sampleFileOf r) with
      | .error e => .error e
      | .ok reference =>
        scoreRecord env ((sampleFileOf r, reference) :: gts) results r reference
  else .ok (gts, results)

/-- The record loop of `run_evaluation`, threading the ground-truth cache
and the results list; an uncaught exception aborts the remaining records. -/
def runAux (env : Env) : List (Txt × Txt) → List EvalResult → List MetaRecord →
    Except EvalError (List EvalResult)
| _, results, [] => .ok results
| gts, results, r :: rest =>
  match processRecord env gts results r with
  | .error e => .error e
  | .ok (gts2, results2) => runAux env gts2 results2 rest

/-- Embeds `evaluate.py::run_evaluation` applied to the metadata records
loaded by `load_metadata` (passed here as a parameter). -/
def run_evaluation (env : Env) (records : List MetaRecord) :
    Except EvalError (List EvalResult) :=
  runAux env [] [] records

/-- Errors of the whole program: the startup credential check, or an
exception escaping `run_evaluation`. -/
inductive ProgError
| missingKey : ProgError
| evalErr : EvalError → ProgError
deriving DecidableEq

/-- The environment variable consulted at module load. -/
def apiKeyName : Txt := str ("FIREWORKS_API_KEY")

/-- Embeds the module-level startup check: `os.environ.get` followed by
`if not FIREWORKS_API_KEY: raise ValueError(...)` (absent or empty both
raise). -/
def startupCheck (v : Option Txt) : Except ProgError Txt :=
  match v with
  | none => .error .missingKey
  | some k => if k = [] then .error .missingKey else .ok k

/-- The program as executed: the credential check runs at import time,
before any record is read or processed; only then does the evaluation run. -/
def runProgram (envVars : Txt → Option Txt) (env : Env)
    (records : List MetaRecord) : Except ProgError (List EvalResult) :=
  match startupCheck (envVars apiKeyName) with
  | .error e => .error e
  | .ok _ =>
    match run_evaluation env records with
    | .error e => .error (.evalErr e)
    | .ok res => .ok res

/-- Inserting one WER into a grouping dictionary (`evaluate.py` lines
196-201 / 210-215): append to the existing key's list, else add a new key at
the end.  Keys are unique, so updating the first match models `dict`. -/
def insertWer : List (Txt × List ℚ) → Txt → ℚ → List (Txt × List ℚ)
| [], k, w => [(k, [w])]
| (k2, ws) :: rest, k, w =>
  if k2 = k then (k2, ws ++ [w]) :: rest else (k2, ws) :: insertWer rest k w

/-- Builds the grouping dictionary over the results list for one categorical
key function. -/
def groupWers (key : EvalResult → Txt) (results : List EvalResult) :
    List (Txt × List ℚ) :=
  results.foldl (fun g r => insertWer g (key r) r.metrics.wer) []

/-- `r["annotations"].get("pace", "unknown")`. -/
def paceOf (r : EvalResult) : Txt := r.annotations.pace.getD unknownTxt

/-- `r["annotations"].get("background_noise", "unknown")`. -/
def noiseOf (r : EvalResult) : Txt := r.annotations.background_noise.getD unknownTxt

/-- One `summary["by_pace"]` / `summary["by_background"]` entry. -/
structure GroupStat where
  count : Nat
  avg_wer : ℚ
deriving DecidableEq

/-- Turns a grouping dictionary into per-group count and mean WER. -/
def mkStats (g : List (Txt × List ℚ)) : List (Txt × GroupStat) :=
  g.map (fun p => (p.1, ⟨p.2.length, p.2.sum / (p.2.length : ℚ)⟩))

/-- `summary["by_pace"]` as computed by `save_results`. -/
def by_pace (results : List EvalResult) : List (Txt × GroupStat) :=
  mkStats (groupWers paceOf results)

/-- `summary["by_background"]` as computed by `save_results`. -/
def by_background (results : List EvalResult) : List (Txt × GroupStat) :=
  mkStats (groupWers noiseOf results)

/-- Python `min(wers)` on a nonempty list (the empty case is unreachable in
`save_results`). -/
def listMin : List ℚ → ℚ
| [] => 0
| x :: xs => xs.foldl min x

/-- Python `max(wers)` on a nonempty list. -/
def listMax : List ℚ → ℚ
| [] => 0
| x :: xs => xs.foldl max x

/-- The summary dict written to `summary_<timestamp>.json` and echoed to the
console (the timestamp is omitted: it does not affect any claim). -/
structure Summary where
  total_recordings : Nat
  avg_wer : ℚ
  avg_cer : ℚ
  min_wer : ℚ
  max_wer : ℚ
  by_pace : List (Txt × GroupStat)
  by_background : List (Txt × GroupStat)
deriving DecidableEq

/-- Builds the summary dict from a (nonempty) results list. -/
def mkSummary (results : List EvalResult) : Summary :=
  let wers := results.map (fun r => r.metrics.wer)
  let cers := results.map (fun r => r.metrics.cer)
  ⟨results.length, wers.sum / (wers.length : ℚ), cers.sum / (cers.length : ℚ),
    listMin wers, listMax wers, by_pace results, by_background results⟩

/-- One line of `transcripts_<timestamp>.jsonl`. -/
structure TranscriptLine where
  id : Txt
  transcription : Txt
  wer : ℚ
deriving DecidableEq

/-- Everything `evaluate.py::save_results` writes and prints: the detailed
results file and the transcripts file are produced unconditionally; the
summary is written to its file and printed to the console only inside
`if results:` — that is, only when the results list is nonempty. -/
structure SaveOutput where
  detailed : List EvalResult
  transcripts : List TranscriptLine
  summary_file : Option Summary
  printed_summary : Option Summary
deriving DecidableEq

/-- Embeds `evaluate.py::save_results` as a pure description of its writes
and prints. -/
def save_results (results : List EvalResult) : SaveOutput :=
  ⟨results,
    results.map (fun r => ⟨r.id, r.transcription, r.metrics.wer⟩),
    if results.isEmpty then none else some (mkSummary results),
    if results.isEmpty then none else some (mkSummary results)⟩

/-- Sum of the `count` fields over the entries of one summary group. -/
def sumCounts (g : List (Txt × GroupStat)) : Nat :=
  (g.map (fun p => p.2.count)).sum

/-- The transcription text a 200 response yields for a record. -/
def transcriptionOf (env : Env) (r : MetaRecord) : Txt :=
  (env.transcribeResp (audioPath r)).text_field.getD []

/-- A record on which one loop iteration fully succeeds: its audio file
exists, its sample file is readable, the API answers 200, and the metric
computation is defined on the resulting pair. -/
def recordSucceeds (env : Env) (r : MetaRecord) : Bool :=
  env.audioExists (audioPath r) &&
    (match env.sampleText (samplePath (sampleFileOf r)) with
     | none => false
     | some t => ((env.transcribeResp (audioPath r)).status_code == 200)
         && (calculate_metrics (pyStrip t) (transcriptionOf env r)).isSome)

/-- Invariant of the `ground_truths` cache: every entry holds exactly the
stripped content of its sample file as the environment serves it. -/
def cacheOK (env : Env) (gts : List (Txt × Txt)) : Prop :=
  ∀ p ∈ gts, ∃ t, env.sampleText (samplePath p.1) = some t ∧ p.2 = pyStrip t

/-- Shared sample text for the concrete witness environments. -/
def hiTxt : Txt := str ("hi")

/-- A metadata record every witness environment lets succeed. -/
def recGood : MetaRecord :=
  ⟨some (str ("r1")), some (str ("a1.wav")), some (str ("s1.txt")),
    some (str ("s1")), ⟨some (str ("fast")), some (str ("quiet"))⟩, some 1⟩

/-- The metadata record made to fail in each witness scenario. -/
def recBad : MetaRecord :=
  ⟨some (str ("r2")), some (str ("a2.wav")), some (str ("s2.txt")),
    some (str ("s2")), ⟨none, none⟩, some 1⟩

/-- Environment in which only `recBad`'s audio file is missing. -/
def envMissingAudio : Env :=
  ⟨fun p => !(p == audioPath recBad), fun _ => some hiTxt,
    fun _ => ⟨200, [], some hiTxt⟩⟩

/-- Environment in which only `recBad`'s transcription request fails (500). -/
def envBadStatus : Env :=
  ⟨fun _ => true, fun _ => some hiTxt,
    fun p => if p == audioPath recBad then ⟨500, str ("oops"), none⟩
      else ⟨200, [], some hiTxt⟩⟩

/-- Environment in which only `recBad`'s sample file is missing. -/
def envMissingSample : Env :=
  ⟨fun _ => true,
    fun p => if p == samplePath (sampleFileOf recBad) then none else some hiTxt,
    fun _ => ⟨200, [], some hiTxt⟩⟩

/-- A bare environment for the startup-check witness. -/
def emptyEnv : Env := ⟨fun _ => false, fun _ => none, fun _ => ⟨404, [], none⟩⟩

/-- A concrete metrics value for the `save_results` witness. -/
def sampleMetrics : Metrics := ⟨0, 0, 1, 1⟩

/-- A concrete evaluation result for the `save_results` witness. -/
def sampleResult : EvalResult :=
  ⟨str ("r1"), str ("s1"), str ("s1.txt"),
    ⟨some (str ("fast")), some (str ("quiet"))⟩, 1, hiTxt, hiTxt, sampleMetrics⟩

/-- The spec's reference scenario string. -/
def foxRef : Txt := str ("the quick brown fox")

/-- The spec's one-substitution hypothesis string. -/
def foxHyp : Txt := str ("the quick red fox")

/-- Counterexample reference for C2: the two raw tokens are x and a period. -/
def xRef : Txt := [120, 32, 46]

/-- Counterexample hypothesis for C2: the two raw tokens are x and a comma. -/
def xHyp : Txt := [120, 32, 44]

/-- A nonempty string that normalizes to the empty string (a lone period). -/
def dotTxt : Txt := [46]

/-- A string consisting of a single apostrophe. -/
def aposTxt : Txt := [39]

theorem lowerN_idem (n : Nat) : lowerN (lowerN n) = lowerN n := by
  unfold lowerN
  split_ifs <;> omega

theorem isSpaceN_32 : isSpaceN 32 = true := rfl

theorem splitAux_token_ne_nil : ∀ (l acc : Txt), ∀ t ∈ splitAux acc l, t ≠ [] := by
  intro l
  induction l with
  | nil =>
    intro acc t ht
    cases hacc : acc.isEmpty with
    | true => simp [splitAux, hacc] at ht
    | false =>
      simp [splitAux, hacc] at ht
      subst ht
      simp only [ne_eq, List.reverse_eq_nil_iff]
      intro h
      rw [h] at hacc
      simp at hacc
  | cons c cs ih =>
    intro acc t ht
    cases hsp : isSpaceN c with
    | true =>
      cases hacc : acc.isEmpty with
      | true =>
        simp [splitAux, hsp, hacc] at ht
        exact ih [] t ht
      | false =>
        simp [splitAux, hsp, hacc] at ht
        rcases ht with h1 | h1
        · subst h1
          simp only [ne_eq, List.reverse_eq_nil_iff]
          intro h
          rw [h] at hacc
          simp at hacc
        · exact ih [] t h1
    | false =>
      simp [splitAux, hsp] at ht
      exact ih (c :: acc) t ht

theorem splitAux_prop (p : Nat → Prop) :
    ∀ (l acc : Txt), (∀ c ∈ acc, p c) → (∀ c ∈ l, p c) →
      ∀ t ∈ splitAux acc l, ∀ c ∈ t, p c := by
  intro l
  induction l with
  | nil =>
    intro acc hacc _ t ht c hc
    cases hacc2 : acc.isEmpty with
    | true => simp [splitAux, hacc2] at ht
    | false =>
      simp [splitAux, hacc2] at ht
      subst ht
      exact hacc c (by simpa using hc)
  | cons d cs ih =>
    intro acc hacc hl t ht c hc
    cases hsp : isSpaceN d with
    | true =>
      cases hacc2 : acc.isEmpty with
      | true =>
        simp [splitAux, hsp, hacc2] at ht
        exact ih [] (by simp) (fun x hx => hl x (List.mem_cons_of_mem _ hx)) t ht c hc
      | false =>
        simp [splitAux, hsp, hacc2] at ht
        rcases ht with h1 | h1
        · subst h1
          exact hacc c (by simpa using hc)
        · exact ih [] (by simp) (fun x hx => hl x (List.mem_cons_of_mem _ hx)) t h1 c hc
    | false =>
      simp [splitAux, hsp] at ht
      refine ih (d :: acc) ?_ (fun x hx => hl x (List.mem_cons_of_mem _ hx)) t ht c hc
      intro x hx
      rcases List.mem_cons.mp hx with h | h
      · exact h ▸ hl d (List.mem_cons_self d cs)
      · exact hacc x h

theorem splitAux_nonspace :
    ∀ (l acc : Txt), (∀ c ∈ acc, isSpaceN c = false) →
      ∀ t ∈ splitAux acc l, ∀ c ∈ t, isSpaceN c = false := by
  intro l
  induction l with
  | nil =>
    intro acc hacc t ht c hc
    cases hacc2 : acc.isEmpty with
    | true => simp [splitAux, hacc2] at ht
    | false =>
      simp [splitAux, hacc2] at ht
      subst ht
      exact hacc c (by simpa using hc)
  | cons d cs ih =>
    intro acc hacc t ht c hc
    cases hsp : isSpaceN d with
    | true =>
      cases hacc2 : acc.isEmpty with
      | true =>
        simp [splitAux, hsp, hacc2] at ht
        exact ih [] (by simp) t ht c hc
      | false =>
        simp [splitAux, hsp, hacc2] at ht
        rcases ht with h1 | h1
        · subst h1
          exact hacc c (by simpa using hc)
        · exact ih [] (by simp) t h1 c hc
    | false =>
      simp [splitAux, hsp] at ht
      refine ih (d :: acc) ?_ t ht c hc
      intro x hx
      rcases List.mem_cons.mp hx with h | h
      · exact h ▸ hsp
      · exact hacc x h

theorem splitAux_append_token :
    ∀ (t acc r : Txt), (∀ c ∈ t, isSpaceN c = false) →
      splitAux acc (t ++ r) = splitAux (t.reverse ++ acc) r := by
  intro t
  induction t with
  | nil => intro acc r _; simp
  | cons c cs ih =>
    intro acc r h
    have hc : isSpaceN c = false := h c (List.mem_cons_self c cs)
    simp only [List.cons_append, splitAux, hc, Bool.false_eq_true, if_false,
      List.append_eq]
    rw [ih (c :: acc) r (fun x hx => h x (List.mem_cons_of_mem _ hx))]
    simp

theorem joinSpace_mem :
    ∀ (ts : List Txt) (c : Nat), c ∈ joinSpace ts → c = 32 ∨ ∃ t ∈ ts, c ∈ t := by
  intro ts
  induction ts with
  | nil => intro c hc; simp [joinSpace] at hc
  | cons t ts ih =>
    intro c hc
    cases ts with
    | nil =>
      simp only [joinSpace] at hc
      exact Or.inr ⟨t, by simp, hc⟩
    | cons t2 ts2 =>
      simp only [joinSpace] at hc
      rcases List.mem_append.mp hc with h | h
      · exact Or.inr ⟨t, by simp, h⟩
      · rcases List.mem_cons.mp h with h | h
        · exact Or.inl h
        · rcases ih c h with h | ⟨u, hu, hcu⟩
          · exact Or.inl h
          · exact Or.inr ⟨u, List.mem_cons_of_mem _ hu, hcu⟩

theorem joinSpace_head (t : Txt) (ts : List Txt) (h : t ≠ []) :
    (joinSpace (t :: ts)).head? = t.head? := by
  cases ts with
  | nil => rfl
  | cons t2 ts2 =>
    cases t with
    | nil => exact absurd rfl h
    | cons a t2 => rfl

theorem joinSpace_ne_nil (t : Txt) (ts : List Txt) (h : t ≠ []) :
    joinSpace (t :: ts) ≠ [] := by
  intro he
  have hh := joinSpace_head t ts h
  rw [he] at hh
  cases t with
  | nil => exact h rfl
  | cons a t2 => simp at hh

theorem mem_of_getLast?_mem (l : Txt) (x : Nat) (h : l.getLast? = some x) : x ∈ l := by
  obtain ⟨hne, heq⟩ := List.mem_getLast?_eq_getLast (Option.mem_def.mpr h)
  rw [heq]
  exact List.getLast_mem hne

theorem getLast_not_space (l : Txt) (h : ∀ c ∈ l, isSpaceN c = false) :
    l.getLast? ≠ some 32 := by
  intro hl
  have h32 := h 32 (mem_of_getLast?_mem l 32 hl)
  simp [isSpaceN] at h32

theorem joinSpace_getLast :
    ∀ (ts : List Txt), (∀ t ∈ ts, t ≠ [] ∧ ∀ c ∈ t, isSpaceN c = false) →
      (joinSpace ts).getLast? ≠ some 32 := by
  intro ts
  induction ts with
  | nil => intro _; simp [joinSpace]
  | cons t ts ih =>
    intro h
    cases ts with
    | nil => exact getLast_not_space t (h t (by simp)).2
    | cons t2 ts2 =>
      simp only [joinSpace]
      have hjoin : joinSpace (t2 :: ts2) ≠ [] :=
        joinSpace_ne_nil t2 ts2 (h t2 (by simp)).1
      have hsplit : (t ++ 32 :: joinSpace (t2 :: ts2) : Txt)
          = (t ++ [32]) ++ joinSpace (t2 :: ts2) := by simp
      rw [hsplit, List.getLast?_append_of_ne_nil _ hjoin]
      exact ih (fun u hu => h u (List.mem_cons_of_mem _ hu))

theorem chain_of_no_space (l : Txt) (h : ∀ c ∈ l, c ≠ 32) :
    List.Chain' (fun a b => ¬(a = 32 ∧ b = 32)) l := by
  induction l with
  | nil => simp
  | cons a l ih =>
    cases l with
    | nil => simp
    | cons b m =>
      rw [List.chain'_cons]
      exact ⟨fun hab => h a (by simp) hab.1,
        ih (fun c hc => h c (List.mem_cons_of_mem _ hc))⟩

theorem joinSpace_chain :
    ∀ (ts : List Txt), (∀ t ∈ ts, t ≠ [] ∧ ∀ c ∈ t, isSpaceN c = false) →
      List.Chain' (fun a b => ¬(a = 32 ∧ b = 32)) (joinSpace ts) := by
  intro ts
  induction ts with
  | nil => intro _; simp [joinSpace]
  | cons t ts ih =>
    intro h
    have hnosp : ∀ c ∈ t, (c : Nat) ≠ 32 := by
      intro c hc he
      have hs := (h t (by simp)).2 c hc
      rw [he] at hs
      simp [isSpaceN] at hs
    cases ts with
    | nil => exact chain_of_no_space t hnosp
    | cons t2 ts2 =>
      simp only [joinSpace]
      rw [List.chain'_append]
      refine ⟨chain_of_no_space t hnosp, ?_, ?_⟩
      · rw [List.chain'_cons']
        refine ⟨?_, ih (fun u hu => h u (List.mem_cons_of_mem _ hu))⟩
        intro y hy
        rw [joinSpace_head t2 ts2 (h t2 (by simp)).1] at hy
        have hyt : y ∈ t2 := List.mem_of_mem_head? hy
        have hs := (h t2 (by simp)).2 y hyt
        intro hc
        rw [hc.2] at hs
        simp [isSpaceN] at hs
      · intro x hx y hy
        have hxt : x ∈ t := mem_of_getLast?_mem t x (Option.mem_def.mp hx)
        intro hc
        exact hnosp x hxt hc.1

theorem split_join :
    ∀ (ts : List Txt), (∀ t ∈ ts, t ≠ [] ∧ ∀ c ∈ t, isSpaceN c = false) →
      pySplit (joinSpace ts) = ts := by
  intro ts
  induction ts with
  | nil => intro _; rfl
  | cons t ts ih =>
    intro h
    cases ts with
    | nil =>
      show splitAux [] (joinSpace [t]) = [t]
      have hj : joinSpace [t] = t ++ [] := by simp [joinSpace]
      rw [hj, splitAux_append_token t [] [] (h t (by simp)).2]
      have hne : (t.reverse : Txt).isEmpty = false := by
        simpa [List.isEmpty_iff] using (h t (by simp)).1
      simp [splitAux, hne]
    | cons t2 ts2 =>
      show splitAux [] (joinSpace (t :: t2 :: ts2)) = t :: t2 :: ts2
      simp only [joinSpace]
      rw [splitAux_append_token t [] (32 :: joinSpace (t2 :: ts2)) (h t (by simp)).2]
      have hne : (t.reverse : Txt).isEmpty = false := by
        simpa [List.isEmpty_iff] using (h t (by simp)).1
      simp only [List.append_nil, splitAux, isSpaceN_32, if_true, hne,
        Bool.false_eq_true, if_false, List.reverse_reverse]
      exact congrArg (t :: ·) (ih (fun u hu => h u (List.mem_cons_of_mem _ hu)))

theorem splitAux_join :
    ∀ (l acc : Txt), (splitAux acc l).flatten
      = acc.reverse ++ l.filter (fun c => !isSpaceN c) := by
  intro l
  induction l with
  | nil =>
    intro acc
    cases he : acc.isEmpty with
    | true =>
      have : acc = [] := List.isEmpty_iff.mp he
      subst this
      simp [splitAux]
    | false => simp [splitAux, he]
  | cons c cs ih =>
    intro acc
    cases hsp : isSpaceN c with
    | true =>
      cases he : acc.isEmpty with
      | true =>
        have : acc = [] := List.isEmpty_iff.mp he
        subst this
        simp [splitAux, hsp, he, List.filter_cons, ih []]
      | false =>
        simp [splitAux, hsp, he, List.filter_cons, ih []]
    | false =>
      simp [splitAux, hsp, List.filter_cons, ih (c :: acc)]

theorem joinSpace_filter :
    ∀ (ts : List Txt), (∀ t ∈ ts, ∀ c ∈ t, isSpaceN c = false) →
      (joinSpace ts).filter (fun c => !isSpaceN c) = ts.flatten := by
  intro ts
  induction ts with
  | nil => intro _; rfl
  | cons t ts ih =>
    intro h
    have hft : t.filter (fun c => !isSpaceN c) = t := by
      apply List.filter_eq_self.mpr
      intro a ha
      simp [h t (by simp) a ha]
    cases ts with
    | nil => simpa [joinSpace] using hft
    | cons t2 ts2 =>
      simp only [joinSpace, List.filter_append, List.filter_cons, isSpaceN_32,
        Bool.not_true, List.flatten_cons]
      simp only [Bool.false_eq_true, if_false]
      rw [hft, ih (fun u hu => h u (List.mem_cons_of_mem _ hu))]
      simp [List.flatten_cons]

theorem norm_tokens_good (s : Txt) :
    ∀ t ∈ pySplit ((s.map lowerN).filter keepN), t ≠ [] ∧
      ∀ c ∈ t, isSpaceN c = false ∧ keepN c = true ∧ lowerN c = c := by
  intro t ht
  refine ⟨splitAux_token_ne_nil _ [] t ht, ?_⟩
  intro c hc
  refine ⟨splitAux_nonspace _ [] (by simp) t ht c hc, ?_⟩
  have hmem : ∀ x ∈ (s.map lowerN).filter keepN, keepN x = true ∧ lowerN x = x := by
    intro x hx
    have h1 := List.of_mem_filter hx
    have h2 := List.mem_of_mem_filter hx
    obtain ⟨y, _, hy⟩ := List.mem_map.mp h2
    exact ⟨h1, by rw [← hy]; exact lowerN_idem y⟩
  exact splitAux_prop (fun x => keepN x = true ∧ lowerN x = x) _ [] (by simp)
    hmem t ht c hc

theorem normalize_split (s : Txt) :
    pySplit (normalize_text s) = pySplit ((s.map lowerN).filter keepN) := by
  unfold normalize_text
  apply split_join
  intro t ht
  have hg := norm_tokens_good s t ht
  exact ⟨hg.1, fun c hc => (hg.2 c hc).1⟩

theorem levFuel_self {α : Type} [DecidableEq α] :
    ∀ (xs : List α) (f : Nat), levFuel f xs xs = 0 := by
  intro xs
  induction xs with
  | nil => intro f; cases f <;> rfl
  | cons x xs ih =>
    intro f
    cases f with
    | zero => rfl
    | succ f => simp [levFuel, ih f]

theorem levFuel_pos {α : Type} [DecidableEq α] :
    ∀ (xs ys : List α) (f : Nat), xs ≠ ys → xs.length + ys.length ≤ f →
      1 ≤ levFuel f xs ys := by
  intro xs
  induction xs with
  | nil =>
    intro ys f hne _
    cases ys with
    | nil => exact absurd rfl hne
    | cons y ys => simp [levFuel]
  | cons x xs ih =>
    intro ys f hne hf
    cases ys with
    | nil => simp [levFuel]
    | cons y ys =>
      cases f with
      | zero => simp at hf
      | succ f =>
        by_cases hxy : x = y
        · subst hxy
          have hne2 : xs ≠ ys := by
            intro h
            exact hne (by rw [h])
          have hf2 : xs.length + ys.length ≤ f := by
            simp at hf
            omega
          simpa [levFuel] using ih ys f hne2 hf2
        · simp [levFuel, hxy]

theorem levFuel_one_sub {α : Type} [DecidableEq α] :
    ∀ (l1 : List α) (x y : α) (l2 : List α) (f : Nat),
      (l1 ++ x :: l2).length + (l1 ++ y :: l2).length ≤ f →
      levFuel f (l1 ++ x :: l2) (l1 ++ y :: l2) ≤ 1 := by
  intro l1
  induction l1 with
  | nil =>
    intro x y l2 f hf
    cases f with
    | zero => simp at hf
    | succ f =>
      by_cases hxy : x = y
      · subst hxy
        simp [levFuel, levFuel_self]
      · simp only [List.nil_append, levFuel, hxy, if_false]
        rw [levFuel_self l2 f]
        have hmin : min (levFuel f l2 (y :: l2))
            (min (levFuel f (x :: l2) l2) 0) = 0 := by simp
        rw [hmin]
  | cons c l1 ih =>
    intro x y l2 f hf
    cases f with
    | zero => simp at hf
    | succ f =>
      simp only [List.cons_append, levFuel, List.append_eq, if_true]
      apply ih
      simp at hf ⊢
      omega

theorem editDistance_self {α : Type} [DecidableEq α] (xs : List α) :
    editDistance xs xs = 0 := levFuel_self xs _

theorem editDistance_one_sub {α : Type} [DecidableEq α]
    (l1 : List α) (x y : α) (l2 : List α) (hxy : x ≠ y) :
    editDistance (l1 ++ x :: l2) (l1 ++ y :: l2) = 1 := by
  apply Nat.le_antisymm
  · exact levFuel_one_sub l1 x y l2 _ (le_refl _)
  · unfold editDistance
    apply levFuel_pos _ _ _ ?_ (le_refl _)
    intro h
    have h2 := List.append_cancel_left h
    injection h2 with h3 _
    exact hxy h3

theorem lookupGT_mem : ∀ (gts : List (Txt × Txt)) (f v : Txt),
    lookupGT gts f = some v → (f, v) ∈ gts := by
  intro gts
  induction gts with
  | nil => intro f v h; simp [lookupGT] at h
  | cons p rest ih =>
    intro f v h
    obtain ⟨k, w⟩ := p
    simp only [lookupGT] at h
    by_cases hk : k = f
    · subst hk
      rw [if_pos rfl] at h
      injection h with h
      subst h
      exact List.mem_cons_self _ _
    · rw [if_neg hk] at h
      exact List.mem_cons_of_mem _ (ih f v h)

theorem recordSucceeds_parts (env : Env) (r : MetaRecord)
    (h : recordSucceeds env r = true) :
    env.audioExists (audioPath r) = true ∧
    ∃ t, env.sampleText (samplePath (sampleFileOf r)) = some t ∧
      (env.transcribeResp (audioPath r)).status_code = 200 ∧
      (calculate_metrics (pyStrip t) (transcriptionOf env r)).isSome = true := by
  unfold recordSucceeds at h
  rw [Bool.and_eq_true] at h
  refine ⟨h.1, ?_⟩
  have h2 := h.2
  rcases hst : env.sampleText (samplePath (sampleFileOf r)) with _ | t
  · rw [hst] at h2
    simp at h2
  · rw [hst] at h2
    simp only [Bool.and_eq_true, beq_iff_eq] at h2
    exact ⟨t, rfl, h2.1, h2.2⟩

theorem scoreRecord_ok (env : Env) (gts : List (Txt × Txt))
    (results : List EvalResult) (r : MetaRecord) (reference : Txt)
    (hst : (env.transcribeResp (audioPath r)).status_code = 200)
    (hm : (calculate_metrics reference (transcriptionOf env r)).isSome = true) :
    ∃ x, scoreRecord env gts results r reference = .ok (gts, results ++ [x]) := by
  have htr : transcribe_audio env (audioPath r) = .ok (transcriptionOf env r) := by
    unfold transcribe_audio transcriptionOf
    rw [if_pos hst]
  rcases hcm : calculate_metrics reference (transcriptionOf env r) with _ | m
  · rw [hcm] at hm
    simp at hm
  · exact ⟨⟨recordId r, r.sample.getD [], sampleFileOf r, r.annotations,
      r.duration_seconds.getD 0, transcriptionOf env r, reference, m⟩, by
      simp only [scoreRecord, htr, hcm]⟩

theorem processRecord_ok (env : Env) (gts : List (Txt × Txt))
    (results : List EvalResult) (r : MetaRecord)
    (hs : recordSucceeds env r = true) (hc : cacheOK env gts) :
    ∃ gts2 x, processRecord env gts results r = .ok (gts2, results ++ [x]) ∧
      cacheOK env gts2 := by
  obtain ⟨ha, t, hst, h200, hm⟩ := recordSucceeds_parts env r hs
  unfold processRecord
  rw [ha, if_pos rfl]
  rcases hl : lookupGT gts (sampleFileOf r) with _ | ref
  · have hload : load_ground_truth env (sampleFileOf r) = .ok (pyStrip t) := by
      unfold load_ground_truth
      rw [hst]
    obtain ⟨x, hx⟩ := scoreRecord_ok env ((sampleFileOf r, pyStrip t) :: gts)
      results r (pyStrip t) h200 hm
    refine ⟨(sampleFileOf r, pyStrip t) :: gts, x, ?_, ?_⟩
    · simp only [hload]
      exact hx
    · intro p hp
      rcases List.mem_cons.mp hp with h | h
      · subst h
        exact ⟨t, hst, rfl⟩
      · exact hc p h
  · have hmem := lookupGT_mem gts (sampleFileOf r) ref hl
    obtain ⟨t2, ht2, hv⟩ := hc _ hmem
    rw [hst] at ht2
    injection ht2 with ht2
    subst ht2
    subst hv
    obtain ⟨x, hx⟩ := scoreRecord_ok env gts results r (pyStrip t) h200 hm
    exact ⟨gts, x, hx, hc⟩

theorem processRecord_skip_audio (env : Env) (gts : List (Txt × Txt))
    (results : List EvalResult) (r : MetaRecord)
    (h : env.audioExists (audioPath r) = false) :
    processRecord env gts results r = .ok (gts, results) := by
  unfold processRecord
  rw [h]
  simp

theorem processRecord_skip_transcribe (env : Env) (gts : List (Txt × Txt))
    (results : List EvalResult) (r : MetaRecord) (t : Txt)
    (ha : env.audioExists (audioPath r) = true)
    (hst : env.sampleText (samplePath (sampleFileOf r)) = some t)
    (h200 : (env.transcribeResp (audioPath r)).status_code ≠ 200)
    (hc : cacheOK env gts) :
    ∃ gts2, processRecord env gts results r = .ok (gts2, results) ∧
      cacheOK env gts2 := by
  have htr : transcribe_audio env (audioPath r)
      = .error ⟨(env.transcribeResp (audioPath r)).status_code,
        (env.transcribeResp (audioPath r)).text⟩ := by
    unfold transcribe_audio
    rw [if_neg h200]
  unfold processRecord
  rw [ha, if_pos rfl]
  rcases hl : lookupGT gts (sampleFileOf r) with _ | ref
  · have hload : load_ground_truth env (sampleFileOf r) = .ok (pyStrip t) := by
      unfold load_ground_truth
      rw [hst]
    refine ⟨(sampleFileOf r, pyStrip t) :: gts, ?_, ?_⟩
    · simp only [hload, scoreRecord, htr]
    · intro p hp
      rcases List.mem_cons.mp hp with h | h
      · subst h
        exact ⟨t, hst, rfl⟩
      · exact hc p h
  · exact ⟨gts, by simp only [scoreRecord, htr], hc⟩

theorem runAux_all_ok (env : Env) :
    ∀ (l : List MetaRecord) (gts : List (Txt × Txt)) (results : List EvalResult),
      (∀ r ∈ l, recordSucceeds env r = true) → cacheOK env gts →
      ∀ rest, ∃ gts2 results2,
        runAux env gts results (l ++ rest) = runAux env gts2 results2 rest ∧
        results2.length = results.length + l.length ∧ cacheOK env gts2 := by
  intro l
  induction l with
  | nil =>
    intro gts results _ hc rest
    exact ⟨gts, results, by simp, by simp, hc⟩
  | cons r l ih =>
    intro gts results hall hc rest
    obtain ⟨gts2, x, hx, hc2⟩ := processRecord_ok env gts results r
      (hall r (List.mem_cons_self r l)) hc
    obtain ⟨gts3, results3, h3, hlen, hc3⟩ :=
      ih gts2 (results ++ [x]) (fun u hu => hall u (List.mem_cons_of_mem _ hu)) hc2 rest
    refine ⟨gts3, results3, ?_, ?_, hc3⟩
    · show runAux env gts results ((r :: l) ++ rest) = _
      simp only [List.cons_append, runAux, hx]
      exact h3
    · simp at hlen ⊢
      omega

theorem insertWer_total : ∀ (g : List (Txt × List ℚ)) (k : Txt) (w : ℚ),
    ((insertWer g k w).map (fun p => p.2.length)).sum
      = (g.map (fun p => p.2.length)).sum + 1 := by
  intro g
  induction g with
  | nil => intro k w; simp [insertWer]
  | cons p rest ih =>
    intro k w
    obtain ⟨k2, ws⟩ := p
    by_cases hk : k2 = k
    · subst hk
      simp [insertWer]
      omega
    · simp [insertWer, hk, ih k w]
      omega

theorem groupWers_total (key : EvalResult → Txt) :
    ∀ (results : List EvalResult) (g : List (Txt × List ℚ)),
      ((results.foldl (fun g r => insertWer g (key r) r.metrics.wer) g).map
        (fun p => p.2.length)).sum
      = (g.map (fun p => p.2.length)).sum + results.length := by
  intro results
  induction results with
  | nil => intro g; simp
  | cons r rest ih =>
    intro g
    simp only [List.foldl_cons, List.length_cons]
    rw [ih (insertWer g (key r) r.metrics.wer), insertWer_total]
    omega

theorem sumCounts_mkStats (g : List (Txt × List ℚ)) :
    sumCounts (mkStats g) = (g.map (fun p => p.2.length)).sum := by
  unfold sumCounts mkStats
  rw [List.map_map]
  rfl

/-- C8: for every result list, the per-group counts produced by the
aggregator sum to the total result count, both for the pace partition and
for the background-noise partition (missing annotations fall into the
"unknown" group via `Option.getD`, so no result is dropped). -/
theorem group_counts_total (results : List EvalResult) :
    sumCounts (by_pace results) = results.length ∧
    sumCounts (by_background results) = results.length := by
  constructor
  · unfold by_pace
    rw [sumCounts_mkStats]
    simpa using groupWers_total paceOf results []
  · unfold by_background
    rw [sumCounts_mkStats]
    simpa using groupWers_total noiseOf results []

/-- Witness for C8: the group counts of a concrete two-element result list
sum to two in both partitions. -/
theorem group_counts_total_witness :
    sumCounts (by_pace [sampleResult, sampleResult]) = 2 ∧
    sumCounts (by_background [sampleResult, sampleResult]) = 2 :=
  group_counts_total [sampleResult, sampleResult]

/-- C5 counterexample: with an empty result list, `save_results` neither
writes the summary file nor prints the summary (the whole summary block is
guarded by `if results:`), contradicting the claim that the summary is
produced even when every record was skipped. -/
theorem save_results_empty_cex :
    (save_results []).summary_file = none ∧
    (save_results []).printed_summary = none := by
  constructor <;> rfl

/-- C5 as amended: `save_results` writes the detailed and transcripts files
for every result list, and prints and writes the summary whenever at least
one result exists — regardless of how many records were skipped earlier; the
summary's total equals the result count. -/
theorem save_results_summary (results : List EvalResult) (h : results ≠ []) :
    (save_results results).detailed = results ∧
    (save_results results).summary_file = some (mkSummary results) ∧
    (save_results results).printed_summary = some (mkSummary results) ∧
    (mkSummary results).total_recordings = results.length := by
  have he : results.isEmpty = false := by simpa [List.isEmpty_iff] using h
  refine ⟨rfl, ?_, ?_, rfl⟩ <;> simp [save_results, he]

/-- Witness for C5 (amended): a singleton result list produces the summary. -/
theorem save_results_summary_witness :
    ([sampleResult] ≠ []) ∧
    (save_results [sampleResult]).detailed = [sampleResult] ∧
    (save_results [sampleResult]).summary_file = some (mkSummary [sampleResult]) ∧
    (save_results [sampleResult]).printed_summary = some (mkSummary [sampleResult]) ∧
    (mkSummary [sampleResult]).total_recordings = 1 :=
  ⟨by simp, (save_results_summary [sampleResult] (by simp)).1,
    (save_results_summary [sampleResult] (by simp)).2.1,
    (save_results_summary [sampleResult] (by simp)).2.2.1,
    (save_results_summary [sampleResult] (by simp)).2.2.2⟩

/-- C9: if the FIREWORKS_API_KEY environment variable is absent, the program
fails at startup with the credential error, before any record is processed —
for every environment and record list, so no evaluation work is reachable. -/
theorem missing_api_key_aborts (envVars : Txt → Option Txt) (env : Env)
    (records : List MetaRecord) (h : envVars apiKeyName = none) :
    runProgram envVars env records = .error .missingKey := by
  unfold runProgram startupCheck
  rw [h]

/-- Witness for C9: a concrete empty variable map aborts a concrete run. -/
theorem missing_api_key_aborts_witness :
    ((fun _ => none : Txt → Option Txt) apiKeyName = none) ∧
    runProgram (fun _ => none) emptyEnv [recGood] = .error .missingKey :=
  ⟨rfl, missing_api_key_aborts (fun _ => none) emptyEnv [recGood] rfl⟩

theorem normalize_out_mem (s : Txt) :
    ∀ c ∈ normalize_text s,
      c = 32 ∨ (isSpaceN c = false ∧ keepN c = true ∧ lowerN c = c) := by
  intro c hc
  unfold normalize_text at hc
  rcases joinSpace_mem _ c hc with h | ⟨t, ht, hct⟩
  · exact Or.inl h
  · exact Or.inr ((norm_tokens_good s t ht).2 c hct)

theorem normalize_map_lower (s : Txt) :
    (normalize_text s).map lowerN = normalize_text s := by
  have hfix : ∀ c ∈ normalize_text s, lowerN c = c := by
    intro c hc
    rcases normalize_out_mem s c hc with h | h
    · subst h; rfl
    · exact h.2.2
  calc (normalize_text s).map lowerN = (normalize_text s).map id :=
        List.map_congr_left hfix
    _ = normalize_text s := List.map_id _

theorem normalize_filter_keep (s : Txt) :
    (normalize_text s).filter keepN = normalize_text s := by
  apply List.filter_eq_self.mpr
  intro a ha
  rcases normalize_out_mem s a ha with h | h
  · subst h; rfl
  · exact h.2.1

/-- C6: `normalize_text` is idempotent — normalizing an already-normalized
string returns it unchanged. -/
theorem normalize_text_idem (s : Txt) :
    normalize_text (normalize_text s) = normalize_text s := by
  show joinSpace (pySplit (((normalize_text s).map lowerN).filter keepN))
    = normalize_text s
  rw [normalize_map_lower, normalize_filter_keep, normalize_split]
  rfl

/-- Witness for C6: idempotence evaluated at a concrete messy input. -/
theorem normalize_text_idem_witness :
    normalize_text (normalize_text (str ("Hello,  World!")))
      = normalize_text (str ("Hello,  World!")) :=
  normalize_text_idem (str ("Hello,  World!"))

/-- C1 counterexample: on the string consisting of a single apostrophe —
punctuation that is not inside any word-internal contraction — the code
keeps the apostrophe while the claim's description removes it, so
`normalize_text` differs from the claimed behaviour at this input. -/
theorem normalize_lone_apostrophe_cex :
    normalize_text aposTxt = aposTxt ∧ normalizeTextClaimed aposTxt = [] ∧
    normalize_text aposTxt ≠ normalizeTextClaimed aposTxt := by
  refine ⟨by decide, by decide, by decide⟩

/-- C1 as amended: for every input, `normalize_text` is total and returns
the input lowercased with punctuation removed but all apostrophes retained
(word-internal or not), and whitespace collapsed to single spaces with no
leading, trailing, or doubled space: every output character is a
lowercase-fixed word character, apostrophe, or space; no two spaces are
adjacent; the output neither starts nor ends with a space; and the
non-space output characters are exactly the kept characters of the
lowercased input, in order. -/
theorem normalize_text_shape (s : Txt) :
    (normalize_text s).all normChar = true ∧
    List.Chain' (fun a b => ¬(a = 32 ∧ b = 32)) (normalize_text s) ∧
    (normalize_text s).head? ≠ some 32 ∧
    (normalize_text s).getLast? ≠ some 32 ∧
    (normalize_text s).filter (fun c => !isSpaceN c)
      = ((s.map lowerN).filter keepN).filter (fun c => !isSpaceN c) := by
  refine ⟨?_, ?_, ?_, ?_, ?_⟩
  · rw [List.all_eq_true]
    intro c hc
    rcases normalize_out_mem s c hc with h | h
    · subst h; rfl
    · have hk := h.2.1
      simp only [keepN, Bool.or_eq_true, h.1, Bool.false_eq_true, or_false,
        beq_iff_eq] at hk
      simp only [normChar, Bool.and_eq_true, Bool.or_eq_true, beq_iff_eq]
      refine ⟨?_, h.2.2⟩
      rcases hk with hk | hk
      · exact Or.inl (Or.inl hk)
      · exact Or.inl (Or.inr hk)
  · unfold normalize_text
    apply joinSpace_chain
    intro t ht
    have hg := norm_tokens_good s t ht
    exact ⟨hg.1, fun c hc => (hg.2 c hc).1⟩
  · unfold normalize_text
    rcases hts : pySplit ((s.map lowerN).filter keepN) with _ | ⟨t, ts⟩
    · simp [joinSpace]
    · have hmem : t ∈ pySplit ((s.map lowerN).filter keepN) := by
        rw [hts]
        exact List.mem_cons_self t ts
      have hg := norm_tokens_good s t hmem
      rw [joinSpace_head t ts hg.1]
      intro hh
      have h32 : (32 : Nat) ∈ t := List.mem_of_mem_head? (Option.mem_def.mpr hh)
      have hsp := (hg.2 32 h32).1
      simp [isSpaceN] at hsp
  · unfold normalize_text
    apply joinSpace_getLast
    intro t ht
    have hg := norm_tokens_good s t ht
    exact ⟨hg.1, fun c hc => (hg.2 c hc).1⟩
  · unfold normalize_text
    rw [joinSpace_filter _ (fun t ht c hc => ((norm_tokens_good s t ht).2 c hc).1)]
    simpa using splitAux_join ((s.map lowerN).filter keepN) []

/-- Witness for C1 (amended): the shape properties evaluated at a concrete
mixed-case punctuated input. -/
theorem normalize_text_shape_witness :
    (normalize_text (str ("The  quick, fox!"))).all normChar = true ∧
    List.Chain' (fun a b => ¬(a = 32 ∧ b = 32))
      (normalize_text (str ("The  quick, fox!"))) ∧
    (normalize_text (str ("The  quick, fox!"))).head? ≠ some 32 ∧
    (normalize_text (str ("The  quick, fox!"))).getLast? ≠ some 32 ∧
    (normalize_text (str ("The  quick, fox!"))).filter (fun c => !isSpaceN c)
      = (((str ("The  quick, fox!")).map lowerN).filter keepN).filter
          (fun c => !isSpaceN c) :=
  normalize_text_shape (str ("The  quick, fox!"))

/-- C7 counterexample: a lone period is a non-empty reference string, yet it
normalizes to the empty string, on which the metric library raises instead
of returning WER 0 — so `calculate_metrics(reference, reference)` does not
return WER 0 for every non-empty reference. -/
theorem metrics_self_cex :
    dotTxt ≠ [] ∧ calculate_metrics dotTxt dotTxt = none := by
  refine ⟨by decide, by decide⟩

/-- C7 as amended: for every reference whose normalized form is non-empty,
`calculate_metrics(reference, reference)` returns WER 0 and CER 0 (the
original claim's "non-empty reference" must be read after normalization,
because a reference that normalizes to empty hits the metric library's
empty-reference error). -/
theorem calculate_metrics_self (r : Txt) (h : normalize_text r ≠ []) :
    ∃ m, calculate_metrics r r = some m ∧ m.wer = 0 ∧ m.cer = 0 := by
  have htoks : pySplit ((r.map lowerN).filter keepN) ≠ [] := by
    intro he
    apply h
    unfold normalize_text
    rw [he]
    rfl
  have hlen : ¬((pySplit (normalize_text r)).length = 0) := by
    rw [normalize_split, List.length_eq_zero]
    exact htoks
  have hchars : ¬((normalize_text r).length = 0) := by
    rw [List.length_eq_zero]
    exact h
  have hwer : jiwer_wer (normalize_text r) (normalize_text r) = some 0 := by
    simp only [jiwer_wer]
    rw [if_neg hlen, editDistance_self]
    simp
  have hcer : jiwer_cer (normalize_text r) (normalize_text r) = some 0 := by
    simp only [jiwer_cer]
    rw [if_neg hchars, editDistance_self]
    simp
  refine ⟨⟨0, 0, (pySplit (normalize_text r)).length,
    (pySplit (normalize_text r)).length⟩, ?_, rfl, rfl⟩
  simp only [calculate_metrics]
  rw [hwer, hcer]

/-- Witness for C7 (amended): the identical fox reference and hypothesis
give WER 0 and CER 0. -/
theorem calculate_metrics_self_witness :
    normalize_text foxRef ≠ [] ∧
    ∃ m, calculate_metrics foxRef foxRef = some m ∧ m.wer = 0 ∧ m.cer = 0 :=
  ⟨by decide, calculate_metrics_self foxRef (by decide)⟩

/-- C2 counterexample: the raw reference has exactly two whitespace tokens
and the hypothesis substitutes exactly one of them (a period for a comma),
yet `calculate_metrics` reports WER 0 rather than the claimed 1/2, because
both punctuation tokens are erased by normalization before scoring. -/
theorem one_sub_wer_cex :
    pySplit xRef = [[120], [46]] ∧ pySplit xHyp = [[120], [44]] ∧
    ([46] : Txt) ≠ [44] ∧
    (calculate_metrics xRef xHyp).map Metrics.wer = some 0 ∧
    (0 : ℚ) ≠ 1 / 2 := by
  have hnr : normalize_text xRef = [120] := by decide
  have hnh : normalize_text xHyp = [120] := by decide
  refine ⟨by decide, by decide, by decide, ?_, by norm_num⟩
  have hwer : jiwer_wer (normalize_text xRef) (normalize_text xHyp) = some 0 := by
    rw [hnr, hnh]
    simp only [jiwer_wer]
    rw [if_neg (by decide), editDistance_self]
    simp
  have hcer : jiwer_cer (normalize_text xRef) (normalize_text xHyp) = some 0 := by
    rw [hnr, hnh]
    simp only [jiwer_cer]
    rw [if_neg (by decide), editDistance_self]
    simp
  simp only [calculate_metrics, hwer, hcer]
  rfl

/-- C2 as amended: whenever the normalized token lists of reference and
hypothesis differ by exactly one substituted token, with N > 0 reference
tokens after normalization, `calculate_metrics` returns WER 1/N (the
original claim's token count and substitution must be read after
normalization, which can merge or erase raw tokens). -/
theorem calculate_metrics_one_sub (r h : Txt) (l1 l2 : List Txt) (x y : Txt)
    (hr : pySplit (normalize_text r) = l1 ++ x :: l2)
    (hh : pySplit (normalize_text h) = l1 ++ y :: l2)
    (hxy : x ≠ y) :
    ∃ m, calculate_metrics r h = some m ∧
      m.wer = 1 / ((l1.length + l2.length + 1 : Nat) : ℚ) := by
  have hlen : ¬((pySplit (normalize_text r)).length = 0) := by
    rw [hr]
    simp
  have hchars : ¬((normalize_text r).length = 0) := by
    rw [List.length_eq_zero]
    intro he
    rw [he] at hr
    simp [pySplit, splitAux] at hr
  have hwer : jiwer_wer (normalize_text r) (normalize_text h)
      = some (1 / ((l1.length + l2.length + 1 : Nat) : ℚ)) := by
    simp only [jiwer_wer]
    rw [if_neg hlen, hr, hh, editDistance_one_sub l1 x y l2 hxy]
    congr 1
    push_cast [List.length_append, List.length_cons]
    ring_nf
  have hcer2 : ∃ cv, jiwer_cer (normalize_text r) (normalize_text h) = some cv := by
    simp only [jiwer_cer]
    rw [if_neg hchars]
    exact ⟨_, rfl⟩
  obtain ⟨cv, hcv⟩ := hcer2
  refine ⟨⟨1 / ((l1.length + l2.length + 1 : Nat) : ℚ), cv,
    (pySplit (normalize_text r)).length, (pySplit (normalize_text h)).length⟩, ?_, rfl⟩
  simp only [calculate_metrics]
  rw [hwer, hcv]

/-- Witness for C2 (amended): the fox scenario — one substituted token out
of four — yields WER 1/4. -/
theorem calculate_metrics_one_sub_witness :
    ∃ m, calculate_metrics foxRef foxHyp = some m ∧ m.wer = 1 / 4 := by
  obtain ⟨m, hm, hw⟩ := calculate_metrics_one_sub foxRef foxHyp
    [str ("the"), str ("quick")] [str ("fox")] (str ("brown")) (str ("red"))
    (by decide) (by decide) (by decide)
  refine ⟨m, hm, ?_⟩
  rw [hw]
  norm_num

theorem cacheOK_nil (env : Env) : cacheOK env [] := by
  intro p hp
  simp at hp

/-- C3: if exactly one record's audio file is missing and every other record
succeeds, `run_evaluation` skips the missing record, returns a result list
one shorter than the metadata record count, and no exception escapes the
batch loop (the run ends in `.ok`). -/
theorem run_evaluation_skips_missing_audio (env : Env) (l1 l2 : List MetaRecord)
    (bad : MetaRecord)
    (h1 : ∀ r ∈ l1, recordSucceeds env r = true)
    (h2 : ∀ r ∈ l2, recordSucceeds env r = true)
    (hbad : env.audioExists (audioPath bad) = false) :
    ∃ res, run_evaluation env (l1 ++ bad :: l2) = .ok res ∧
      res.length + 1 = (l1 ++ bad :: l2).length := by
  obtain ⟨gts2, res2, hrun, hlen2, hc2⟩ :=
    runAux_all_ok env l1 [] [] h1 (cacheOK_nil env) (bad :: l2)
  have hstep : runAux env gts2 res2 (bad :: l2) = runAux env gts2 res2 l2 := by
    simp only [runAux, processRecord_skip_audio env gts2 res2 bad hbad]
  obtain ⟨gts3, res3, hrun3, hlen3, hc3⟩ := runAux_all_ok env l2 gts2 res2 h2 hc2 []
  rw [List.append_nil] at hrun3
  refine ⟨res3, ?_, ?_⟩
  · unfold run_evaluation
    rw [hrun, hstep, hrun3]
    rfl
  · simp at hlen2 hlen3 ⊢
    omega

/-- Witness for C3: a two-record batch in which the second record's audio
file is missing yields one result and no escaping exception. -/
theorem run_evaluation_skips_missing_audio_witness :
    (∀ r ∈ [recGood], recordSucceeds envMissingAudio r = true) ∧
    envMissingAudio.audioExists (audioPath recBad) = false ∧
    ∃ res, run_evaluation envMissingAudio ([recGood] ++ recBad :: []) = .ok res ∧
      res.length + 1 = ([recGood] ++ recBad :: []).length :=
  ⟨by decide, by decide,
    run_evaluation_skips_missing_audio envMissingAudio [recGood] [] recBad
      (by decide) (by decide) (by decide)⟩

/-- C4: a non-2xx response makes `transcribe_audio` raise an error carrying
the response's status code and body, and `run_evaluation` catches it, skips
exactly that record (appending no result for it), and finishes the rest of
the batch normally. -/
theorem transcribe_error_skips_record (env : Env) (l1 l2 : List MetaRecord)
    (bad : MetaRecord) (gtText : Txt)
    (hnon2xx : (env.transcribeResp (audioPath bad)).status_code < 200 ∨
      299 < (env.transcribeResp (audioPath bad)).status_code)
    (hex : env.audioExists (audioPath bad) = true)
    (hgt : env.sampleText (samplePath (sampleFileOf bad)) = some gtText)
    (h1 : ∀ r ∈ l1, recordSucceeds env r = true)
    (h2 : ∀ r ∈ l2, recordSucceeds env r = true) :
    transcribe_audio env (audioPath bad)
      = .error ⟨(env.transcribeResp (audioPath bad)).status_code,
        (env.transcribeResp (audioPath bad)).text⟩ ∧
    ∃ res, run_evaluation env (l1 ++ bad :: l2) = .ok res ∧
      res.length + 1 = (l1 ++ bad :: l2).length := by
  have h200 : (env.transcribeResp (audioPath bad)).status_code ≠ 200 := by omega
  constructor
  · unfold transcribe_audio
    rw [if_neg h200]
  · obtain ⟨gts2, res2, hrun, hlen2, hc2⟩ :=
      runAux_all_ok env l1 [] [] h1 (cacheOK_nil env) (bad :: l2)
    obtain ⟨gts2b, hstep0, hc2b⟩ :=
      processRecord_skip_transcribe env gts2 res2 bad gtText hex hgt h200 hc2
    have hstep : runAux env gts2 res2 (bad :: l2) = runAux env gts2b res2 l2 := by
      simp only [runAux, hstep0]
    obtain ⟨gts3, res3, hrun3, hlen3, hc3⟩ := runAux_all_ok env l2 gts2b res2 h2 hc2b []
    rw [List.append_nil] at hrun3
    refine ⟨res3, ?_, ?_⟩
    · unfold run_evaluation
      rw [hrun, hstep, hrun3]
      rfl
    · simp at hlen2 hlen3 ⊢
      omega

/-- Witness for C4: a concrete 500 response on the second of two records
yields the carried error and a one-result batch. -/
theorem transcribe_error_skips_record_witness :
    transcribe_audio envBadStatus (audioPath recBad)
      = .error ⟨(envBadStatus.transcribeResp (audioPath recBad)).status_code,
        (envBadStatus.transcribeResp (audioPath recBad)).text⟩ ∧
    ∃ res, run_evaluation envBadStatus ([recGood] ++ recBad :: []) = .ok res ∧
      res.length + 1 = ([recGood] ++ recBad :: []).length :=
  transcribe_error_skips_record envBadStatus [recGood] [] recBad hiTxt
    (by decide) (by decide) (by decide) (by decide) (by decide)

/-- C10: when a record's audio file exists but its sample file is missing
(and it was not cached by an earlier record — impossible here, since every
earlier record succeeded), `load_ground_truth` raises an exception that no
handler inside the loop catches, so the batch aborts with that error and the
remaining records are never processed: the outcome is the same error for
every suffix `l2`. -/
theorem missing_sample_aborts_batch (env : Env) (l1 l2 : List MetaRecord)
    (bad : MetaRecord)
    (h1 : ∀ r ∈ l1, recordSucceeds env r = true)
    (hex : env.audioExists (audioPath bad) = true)
    (hmiss : env.sampleText (samplePath (sampleFileOf bad)) = none) :
    run_evaluation env (l1 ++ bad :: l2)
      = .error (.fileNotFound (samplePath (sampleFileOf bad))) := by
  obtain ⟨gts2, res2, hrun, _, hc2⟩ :=
    runAux_all_ok env l1 [] [] h1 (cacheOK_nil env) (bad :: l2)
  unfold run_evaluation
  rw [hrun]
  have hlook : lookupGT gts2 (sampleFileOf bad) = none := by
    rcases hl : lookupGT gts2 (sampleFileOf bad) with _ | v
    · rfl
    · obtain ⟨t, ht, _⟩ := hc2 _ (lookupGT_mem _ _ _ hl)
      rw [hmiss] at ht
      cases ht
  have hload : load_ground_truth env (sampleFileOf bad)
      = .error (.fileNotFound (samplePath (sampleFileOf bad))) := by
    unfold load_ground_truth
    rw [hmiss]
  have hproc : processRecord env gts2 res2 bad
      = .error (.fileNotFound (samplePath (sampleFileOf bad))) := by
    unfold processRecord
    rw [hex, if_pos rfl, hlook, hload]
  simp only [runAux, hproc]

/-- Witness for C10: with the second record's sample file missing, a
three-record batch aborts with the file error and the third record is never
reached. -/
theorem missing_sample_aborts_batch_witness :
    (∀ r ∈ [recGood], recordSucceeds envMissingSample r = true) ∧
    envMissingSample.audioExists (audioPath recBad) = true ∧
    envMissingSample.sampleText (samplePath (sampleFileOf recBad)) = none ∧
    run_evaluation envMissingSample ([recGood] ++ recBad :: [recGood])
      = .error (.fileNotFound (samplePath (sampleFileOf recBad))) :=
  ⟨by decide, by decide, by decide,
    missing_sample_aborts_batch envMissingSample [recGood] [recGood] recBad
      (by decide) (by decide) (by decide)⟩
